import Mathlib

/-!
# Verification of `mobx-form-state` input-group composition (src/state/InputGroup.ts)

This file shallowly embeds the tree data model and the structural recursion
algorithms of `InputGroup.ts` and proves the specification claims about them.

Modelling conventions:
* An `Input` leaf (external collaborator, `src/state/Input.ts` is not part of
  the sources) is represented by an opaque numeric identity.
* JavaScript runtime values that flow through `reset` / `confirm` / the value
  getters are modelled by `Val` below: `undefined`, `null`, booleans, integers,
  strings, arrays and plain objects (association lists in enumeration order).
  Exotic JS indexing corners that the typed API of the library cannot produce
  (character indexing of strings, the `length` property of arrays) are not
  modelled; property access on such values yields `undefined`.
* The content structure of a group (`InputGroupContent`) is `Node`: a leaf,
  a nested group (carrying its resolved structure), an array, or an object.
  A nested group in this embedding carries a constant structure; the
  function-valued content description of the group under scrutiny is modelled
  by `Desc`, indexed by the access generation at which it is invoked.
* Mutations of leaves are observable only through the ordered list of method
  calls (`Call`) the group code issues against its leaves; `Input` itself is
  external to the sources.
-/

/-- JavaScript runtime values, as far as the reset/confirm/value data paths of
`InputGroup.ts` can observe them. -/
inductive Val where
  | vUndefined : Val
  | vNull : Val
  | vBool : Bool → Val
  | vNum : Int → Val
  | vStr : String → Val
  | vArr : List Val → Val
  | vObj : List (String × Val) → Val

mutual

def decEqVal : (a b : Val) → Decidable (a = b)
  | .vUndefined, .vUndefined => .isTrue rfl
  | .vNull, .vNull => .isTrue rfl
  | .vBool x, .vBool y =>
    if h : x = y then .isTrue (h ▸ rfl) else .isFalse (fun hh => h (Val.vBool.inj hh))
  | .vNum x, .vNum y =>
    if h : x = y then .isTrue (h ▸ rfl) else .isFalse (fun hh => h (Val.vNum.inj hh))
  | .vStr x, .vStr y =>
    if h : x = y then .isTrue (h ▸ rfl) else .isFalse (fun hh => h (Val.vStr.inj hh))
  | .vArr xs, .vArr ys =>
    match decEqValList xs ys with
    | .isTrue h => .isTrue (h ▸ rfl)
    | .isFalse h => .isFalse (fun hh => h (Val.vArr.inj hh))
  | .vObj fs, .vObj gs =>
    match decEqValFields fs gs with
    | .isTrue h => .isTrue (h ▸ rfl)
    | .isFalse h => .isFalse (fun hh => h (Val.vObj.inj hh))
  | .vUndefined, .vNull => .isFalse (fun h => Val.noConfusion h)
  | .vUndefined, .vBool _ => .isFalse (fun h => Val.noConfusion h)
  | .vUndefined, .vNum _ => .isFalse (fun h => Val.noConfusion h)
  | .vUndefined, .vStr _ => .isFalse (fun h => Val.noConfusion h)
  | .vUndefined, .vArr _ => .isFalse (fun h => Val.noConfusion h)
  | .vUndefined, .vObj _ => .isFalse (fun h => Val.noConfusion h)
  | .vNull, .vUndefined => .isFalse (fun h => Val.noConfusion h)
  | .vNull, .vBool _ => .isFalse (fun h => Val.noConfusion h)
  | .vNull, .vNum _ => .isFalse (fun h => Val.noConfusion h)
  | .vNull, .vStr _ => .isFalse (fun h => Val.noConfusion h)
  | .vNull, .vArr _ => .isFalse (fun h => Val.noConfusion h)
  | .vNull, .vObj _ => .isFalse (fun h => Val.noConfusion h)
  | .vBool _, .vUndefined => .isFalse (fun h => Val.noConfusion h)
  | .vBool _, .vNull => .isFalse (fun h => Val.noConfusion h)
  | .vBool _, .vNum _ => .isFalse (fun h => Val.noConfusion h)
  | .vBool _, .vStr _ => .isFalse (fun h => Val.noConfusion h)
  | .vBool _, .vArr _ => .isFalse (fun h => Val.noConfusion h)
  | .vBool _, .vObj _ => .isFalse (fun h => Val.noConfusion h)
  | .vNum _, .vUndefined => .isFalse (fun h => Val.noConfusion h)
  | .vNum _, .vNull => .isFalse (fun h => Val.noConfusion h)
  | .vNum _, .vBool _ => .isFalse (fun h => Val.noConfusion h)
  | .vNum _, .vStr _ => .isFalse (fun h => Val.noConfusion h)
  | .vNum _, .vArr _ => .isFalse (fun h => Val.noConfusion h)
  | .vNum _, .vObj _ => .isFalse (fun h => Val.noConfusion h)
  | .vStr _, .vUndefined => .isFalse (fun h => Val.noConfusion h)
  | .vStr _, .vNull => .isFalse (fun h => Val.noConfusion h)
  | .vStr _, .vBool _ => .isFalse (fun h => Val.noConfusion h)
  | .vStr _, .vNum _ => .isFalse (fun h => Val.noConfusion h)
  | .vStr _, .vArr _ => .isFalse (fun h => Val.noConfusion h)
  | .vStr _, .vObj _ => .isFalse (fun h => Val.noConfusion h)
  | .vArr _, .vUndefined => .isFalse (fun h => Val.noConfusion h)
  | .vArr _, .vNull => .isFalse (fun h => Val.noConfusion h)
  | .vArr _, .vBool _ => .isFalse (fun h => Val.noConfusion h)
  | .vArr _, .vNum _ => .isFalse (fun h => Val.noConfusion h)
  | .vArr _, .vStr _ => .isFalse (fun h => Val.noConfusion h)
  | .vArr _, .vObj _ => .isFalse (fun h => Val.noConfusion h)
  | .vObj _, .vUndefined => .isFalse (fun h => Val.noConfusion h)
  | .vObj _, .vNull => .isFalse (fun h => Val.noConfusion h)
  | .vObj _, .vBool _ => .isFalse (fun h => Val.noConfusion h)
  | .vObj _, .vNum _ => .isFalse (fun h => Val.noConfusion h)
  | .vObj _, .vStr _ => .isFalse (fun h => Val.noConfusion h)
  | .vObj _, .vArr _ => .isFalse (fun h => Val.noConfusion h)

def decEqValList : (a b : List Val) → Decidable (a = b)
  | [], [] => .isTrue rfl
  | [], _ :: _ => .isFalse (fun h => List.noConfusion h)
  | _ :: _, [] => .isFalse (fun h => List.noConfusion h)
  | x :: xs, y :: ys =>
    match decEqVal x y, decEqValList xs ys with
    | .isTrue h1, .isTrue h2 => .isTrue (h1 ▸ h2 ▸ rfl)
    | .isFalse h1, _ => .isFalse (fun h => h1 (List.cons.inj h).1)
    | _, .isFalse h2 => .isFalse (fun h => h2 (List.cons.inj h).2)

def decEqValFields : (a b : List (String × Val)) → Decidable (a = b)
  | [], [] => .isTrue rfl
  | [], _ :: _ => .isFalse (fun h => List.noConfusion h)
  | _ :: _, [] => .isFalse (fun h => List.noConfusion h)
  | f :: fs, g :: gs =>
    match String.decEq f.1 g.1, decEqVal f.2 g.2, decEqValFields fs gs with
    | .isTrue h0, .isTrue h1, .isTrue h2 => .isTrue (by rw [show f = g from Prod.ext h0 h1, h2])
    | .isFalse h0, _, _ => .isFalse (fun h => h0 (congrArg Prod.fst (List.cons.inj h).1))
    | _, .isFalse h1, _ => .isFalse (fun h => h1 (congrArg Prod.snd (List.cons.inj h).1))
    | _, _, .isFalse h2 => .isFalse (fun h => h2 (List.cons.inj h).2)

end

instance : DecidableEq Val := decEqVal

/-- The three value-extraction modes of `getValueFromShape`
(`"value" | "inputValue" | "normalizedInputValue"`). -/
inductive Mode where
  | value : Mode
  | inputValue : Mode
  | normalizedInputValue : Mode
deriving DecidableEq

/-- A group-free input structure: the TS type `InputShape`
(`Input<any> | $InputShapeObject | $InputShapeArray`). This is the codomain of
`unwrapGroups` and the domain of `getValueFromShape` and `flattenInputs`. -/
inductive Shape where
  | input : Nat → Shape
  | arr : List Shape → Shape
  | obj : List (String × Shape) → Shape

mutual

def decEqShape : (a b : Shape) → Decidable (a = b)
  | .input i, .input j =>
    if h : i = j then .isTrue (h ▸ rfl) else .isFalse (fun hh => h (Shape.input.inj hh))
  | .arr xs, .arr ys =>
    match decEqShapeList xs ys with
    | .isTrue h => .isTrue (h ▸ rfl)
    | .isFalse h => .isFalse (fun hh => h (Shape.arr.inj hh))
  | .obj fs, .obj gs =>
    match decEqShapeFields fs gs with
    | .isTrue h => .isTrue (h ▸ rfl)
    | .isFalse h => .isFalse (fun hh => h (Shape.obj.inj hh))
  | .input _, .arr _ => .isFalse (fun h => Shape.noConfusion h)
  | .input _, .obj _ => .isFalse (fun h => Shape.noConfusion h)
  | .arr _, .input _ => .isFalse (fun h => Shape.noConfusion h)
  | .arr _, .obj _ => .isFalse (fun h => Shape.noConfusion h)
  | .obj _, .input _ => .isFalse (fun h => Shape.noConfusion h)
  | .obj _, .arr _ => .isFalse (fun h => Shape.noConfusion h)

def decEqShapeList : (a b : List Shape) → Decidable (a = b)
  | [], [] => .isTrue rfl
  | [], _ :: _ => .isFalse (fun h => List.noConfusion h)
  | _ :: _, [] => .isFalse (fun h => List.noConfusion h)
  | x :: xs, y :: ys =>
    match decEqShape x y, decEqShapeList xs ys with
    | .isTrue h1, .isTrue h2 => .isTrue (h1 ▸ h2 ▸ rfl)
    | .isFalse h1, _ => .isFalse (fun h => h1 (List.cons.inj h).1)
    | _, .isFalse h2 => .isFalse (fun h => h2 (List.cons.inj h).2)

def decEqShapeFields : (a b : List (String × Shape)) → Decidable (a = b)
  | [], [] => .isTrue rfl
  | [], _ :: _ => .isFalse (fun h => List.noConfusion h)
  | _ :: _, [] => .isFalse (fun h => List.noConfusion h)
  | f :: fs, g :: gs =>
    match String.decEq f.1 g.1, decEqShape f.2 g.2, decEqShapeFields fs gs with
    | .isTrue h0, .isTrue h1, .isTrue h2 => .isTrue (by rw [show f = g from Prod.ext h0 h1, h2])
    | .isFalse h0, _, _ => .isFalse (fun h => h0 (congrArg Prod.fst (List.cons.inj h).1))
    | _, .isFalse h1, _ => .isFalse (fun h => h1 (congrArg Prod.snd (List.cons.inj h).1))
    | _, _, .isFalse h2 => .isFalse (fun h => h2 (List.cons.inj h).2)

end

instance : DecidableEq Shape := decEqShape

/-- An input-group content structure: the TS type `InputGroupContent`
(`Input | InputGroup | array | object`). A nested `InputGroup` is carried
together with its (resolved, constant) `structure`. -/
inductive Node where
  | input : Nat → Node
  | group : Node → Node
  | arr : List Node → Node
  | obj : List (String × Node) → Node

mutual

def decEqNode : (a b : Node) → Decidable (a = b)
  | .input i, .input j =>
    if h : i = j then .isTrue (h ▸ rfl) else .isFalse (fun hh => h (Node.input.inj hh))
  | .group s, .group t =>
    match decEqNode s t with
    | .isTrue h => .isTrue (h ▸ rfl)
    | .isFalse h => .isFalse (fun hh => h (Node.group.inj hh))
  | .arr xs, .arr ys =>
    match decEqNodeList xs ys with
    | .isTrue h => .isTrue (h ▸ rfl)
    | .isFalse h => .isFalse (fun hh => h (Node.arr.inj hh))
  | .obj fs, .obj gs =>
    match decEqNodeFields fs gs with
    | .isTrue h => .isTrue (h ▸ rfl)
    | .isFalse h => .isFalse (fun hh => h (Node.obj.inj hh))
  | .input _, .group _ => .isFalse (fun h => Node.noConfusion h)
  | .input _, .arr _ => .isFalse (fun h => Node.noConfusion h)
  | .input _, .obj _ => .isFalse (fun h => Node.noConfusion h)
  | .group _, .input _ => .isFalse (fun h => Node.noConfusion h)
  | .group _, .arr _ => .isFalse (fun h => Node.noConfusion h)
  | .group _, .obj _ => .isFalse (fun h => Node.noConfusion h)
  | .arr _, .input _ => .isFalse (fun h => Node.noConfusion h)
  | .arr _, .group _ => .isFalse (fun h => Node.noConfusion h)
  | .arr _, .obj _ => .isFalse (fun h => Node.noConfusion h)
  | .obj _, .input _ => .isFalse (fun h => Node.noConfusion h)
  | .obj _, .group _ => .isFalse (fun h => Node.noConfusion h)
  | .obj _, .arr _ => .isFalse (fun h => Node.noConfusion h)

def decEqNodeList : (a b : List Node) → Decidable (a = b)
  | [], [] => .isTrue rfl
  | [], _ :: _ => .isFalse (fun h => List.noConfusion h)
  | _ :: _, [] => .isFalse (fun h => List.noConfusion h)
  | x :: xs, y :: ys =>
    match decEqNode x y, decEqNodeList xs ys with
    | .isTrue h1, .isTrue h2 => .isTrue (h1 ▸ h2 ▸ rfl)
    | .isFalse h1, _ => .isFalse (fun h => h1 (List.cons.inj h).1)
    | _, .isFalse h2 => .isFalse (fun h => h2 (List.cons.inj h).2)

def decEqNodeFields : (a b : List (String × Node)) → Decidable (a = b)
  | [], [] => .isTrue rfl
  | [], _ :: _ => .isFalse (fun h => List.noConfusion h)
  | _ :: _, [] => .isFalse (fun h => List.noConfusion h)
  | f :: fs, g :: gs =>
    match String.decEq f.1 g.1, decEqNode f.2 g.2, decEqNodeFields fs gs with
    | .isTrue h0, .isTrue h1, .isTrue h2 => .isTrue (by rw [show f = g from Prod.ext h0 h1, h2])
    | .isFalse h0, _, _ => .isFalse (fun h => h0 (congrArg Prod.fst (List.cons.inj h).1))
    | _, .isFalse h1, _ => .isFalse (fun h => h1 (congrArg Prod.snd (List.cons.inj h).1))
    | _, _, .isFalse h2 => .isFalse (fun h => h2 (List.cons.inj h).2)

end

instance : DecidableEq Node := decEqNode

mutual

/-- A group-free structure is in particular a content structure. -/
def Shape.toNode : Shape → Node
  | .input i => .input i
  | .arr xs => .arr (Shape.toNodeList xs)
  | .obj fs => .obj (Shape.toNodeFields fs)

def Shape.toNodeList : List Shape → List Node
  | [] => []
  | x :: xs => Shape.toNode x :: Shape.toNodeList xs

def Shape.toNodeFields : List (String × Shape) → List (String × Node)
  | [] => []
  | f :: fs => (f.1, Shape.toNode f.2) :: Shape.toNodeFields fs

end

/-- A mutating method call issued by the group code against a leaf.
`confirm` carries the `value` argument and the `next` ("advance focus to the
next input") option of the argument object; an absent option is `vUndefined`. -/
inductive Call where
  | reset : Nat → Val → Call
  | confirm : Nat → Val → Val → Call
deriving DecidableEq

/-- The leaf identity a call is addressed to. -/
def Call.callee : Call → Nat
  | .reset i _ => i
  | .confirm i _ _ => i

/-- JavaScript truthiness: `undefined`, `null`, `false`, `0` and `""` are
falsy; every array and object is truthy. -/
def Val.falsy : Val → Bool
  | .vUndefined => true
  | .vNull => true
  | .vBool b => !b
  | .vNum n => n == 0
  | .vStr s => s == ""
  | .vArr _ => false
  | .vObj _ => false

/-- JavaScript truthiness, positively. -/
def Val.truthy (v : Val) : Bool := !v.falsy

/-- First binding of a key in the property list of an object. -/
def lookupField : List (String × Val) → String → Val
  | [], _ => .vUndefined
  | f :: fs, key => if f.1 = key then f.2 else lookupField fs key

/-- JS property access `v[i]` with a numeric index: array element, or object
property under the decimal string of `i`; `undefined` otherwise. -/
def jsIndexNat : Val → Nat → Val
  | .vArr xs, i => (xs.get? i).getD .vUndefined
  | .vObj fs, i => lookupField fs (Nat.repr i)
  | _, _ => .vUndefined

/-- JS property access `v[k]` with a string key: object property, or the
array element at a canonical numeral key; `undefined` otherwise. -/
def jsIndexStr : Val → String → Val
  | .vObj fs, k => lookupField fs k
  | .vArr xs, k =>
    match k.toNat? with
    | some i => if Nat.repr i = k then (xs.get? i).getD .vUndefined else .vUndefined
    | none => .vUndefined
  | _, _ => .vUndefined

/-- The short-circuit conjunction `value && value[index]` of
`resetShape` / `confirmShape` (numeric index). -/
def andIndexNat (v : Val) (i : Nat) : Val :=
  if v.falsy then v else jsIndexNat v i

/-- The short-circuit conjunction `value && value[key]` of
`resetShape` / `confirmShape` (string key). -/
def andIndexStr (v : Val) (k : String) : Val :=
  if v.falsy then v else jsIndexStr v k

mutual

/-- `shapeResume` is the dispatch of the source function `unwrapGroups`
restricted to its argument type at the outer recursive call
`unwrapGroups(inputs.inputs)`: there `inputs.inputs` has the group-free type
`InferInputGroupShape`, so only the `Input`, array and object branches of
`unwrapGroups` can run, each rebuilding the container around the recursive
results. -/
def shapeResume : Shape → Shape
  | .input i => .input i
  | .arr xs => .arr (shapeResumeList xs)
  | .obj fs => .obj (shapeResumeFields fs)

def shapeResumeList : List Shape → List Shape
  | [] => []
  | x :: xs => shapeResume x :: shapeResumeList xs

def shapeResumeFields : List (String × Shape) → List (String × Shape)
  | [] => []
  | f :: fs => (f.1, shapeResume f.2) :: shapeResumeFields fs

end

mutual

/-- Source `unwrapGroups` (InputGroup.ts lines 289-302): recursively unwraps a
content structure to a structure of inputs.  On a nested `InputGroup` the
source returns `unwrapGroups(inputs.inputs)` where `inputs.inputs` is the
already-collapsed `unwrapGroups(inputs.structure)` of the subgroup; that outer
application runs on a group-free tree and is `shapeResume`. -/
def unwrapGroups : Node → Shape
  | .group s => shapeResume (unwrapGroups s)
  | .input i => .input i
  | .arr xs => .arr (unwrapGroupsList xs)
  | .obj fs => .obj (unwrapGroupsFields fs)

def unwrapGroupsList : List Node → List Shape
  | [] => []
  | x :: xs => unwrapGroups x :: unwrapGroupsList xs

def unwrapGroupsFields : List (String × Node) → List (String × Shape)
  | [] => []
  | f :: fs => (f.1, unwrapGroups f.2) :: unwrapGroupsFields fs

end

/-- The attribute store of the external `Input` leaves: what each leaf
currently reports for `value`, `inputValue` and `normalizedInputValue`. -/
def World : Type := Nat → Mode → Val

mutual

/-- Source `getValueFromShape` (InputGroup.ts lines 181-194): extracts the
structure of leaf values corresponding to a group-free structure of inputs, in
one of the three modes.  Reading the leaf attribute is `w i m`. -/
def getValueFromShape (w : World) : Shape → Mode → Val
  | .input i, m => w i m
  | .arr xs, m => .vArr (getValueFromShapeList w xs m)
  | .obj fs, m => .vObj (getValueFromShapeFields w fs m)

def getValueFromShapeList (w : World) : List Shape → Mode → List Val
  | [], _ => []
  | x :: xs, m => getValueFromShape w x m :: getValueFromShapeList w xs m

def getValueFromShapeFields (w : World) : List (String × Shape) → Mode → List (String × Val)
  | [], _ => []
  | f :: fs, m => (f.1, getValueFromShape w f.2 m) :: getValueFromShapeFields w fs m

end

mutual

/-- Source `resetShape` (InputGroup.ts lines 202-217) observed through the
leaf calls it issues, in traversal order.  An `Input` receives
`reset({ value })`; a nested group recurses into its structure with the same
value; containers descend the value in lock step through the JS short-circuit
conjunction `value && value[indexOrKey]`. -/
def resetShape : Node → Val → List Call
  | .input i, v => [.reset i v]
  | .group s, v => resetShape s v
  | .arr xs, v => resetShapeList xs 0 v
  | .obj fs, v => resetShapeFields fs v

def resetShapeList : List Node → Nat → Val → List Call
  | [], _, _ => []
  | x :: xs, i, v => resetShape x (andIndexNat v i) ++ resetShapeList xs (i + 1) v

def resetShapeFields : List (String × Node) → Val → List Call
  | [], _ => []
  | f :: fs, v => resetShape f.2 (andIndexStr v f.1) ++ resetShapeFields fs v

end

mutual

/-- Source `confirmShape` (InputGroup.ts lines 225-240) observed through the
leaf calls it issues, in traversal order.  An `Input` receives
`confirm({ value })` — the argument object carries no `next` option, so the
"advance focus to the next input" option of the leaf is absent (`vUndefined`). -/
def confirmShape : Node → Val → List Call
  | .input i, v => [.confirm i v .vUndefined]
  | .group s, v => confirmShape s v
  | .arr xs, v => confirmShapeList xs 0 v
  | .obj fs, v => confirmShapeFields fs v

def confirmShapeList : List Node → Nat → Val → List Call
  | [], _, _ => []
  | x :: xs, i, v => confirmShape x (andIndexNat v i) ++ confirmShapeList xs (i + 1) v

def confirmShapeFields : List (String × Node) → Val → List Call
  | [], _ => []
  | f :: fs, v => confirmShape f.2 (andIndexStr v f.1) ++ confirmShapeFields fs v

end

mutual

/-- Source `flattenInputs` (InputGroup.ts lines 248-261): pushes every input
of a group-free structure onto the buffer, in traversal order. -/
def flattenInputs : Shape → List Nat → List Nat
  | .input i, buf => buf ++ [i]
  | .arr xs, buf => flattenInputsList xs buf
  | .obj fs, buf => flattenInputsFields fs buf

def flattenInputsList : List Shape → List Nat → List Nat
  | [], buf => buf
  | x :: xs, buf => flattenInputsList xs (flattenInputs x buf)

def flattenInputsFields : List (String × Shape) → List Nat → List Nat
  | [], buf => buf
  | f :: fs, buf => flattenInputsFields fs (flattenInputs f.2 buf)

end

/-- An entry of `flattenedStructure`: an input or a subgroup, the latter kept
as one element without descending into it. -/
inductive StructItem where
  | inputItem : Nat → StructItem
  | groupItem : Node → StructItem

mutual

/-- Source `flattenStructure` (InputGroup.ts lines 269-283): pushes every
input or subgroup of a content structure onto the buffer without collapsing
subgroups. -/
def flattenStructure : Node → List StructItem → List StructItem
  | .input i, buf => buf ++ [.inputItem i]
  | .group s, buf => buf ++ [.groupItem s]
  | .arr xs, buf => flattenStructureList xs buf
  | .obj fs, buf => flattenStructureFields fs buf

def flattenStructureList : List Node → List StructItem → List StructItem
  | [], buf => buf
  | x :: xs, buf => flattenStructureList xs (flattenStructure x buf)

def flattenStructureFields : List (String × Node) → List StructItem → List StructItem
  | [], buf => buf
  | f :: fs, buf => flattenStructureFields fs (flattenStructure f.2 buf)

end

/-- The content description an `InputGroup` is constructed with
(`MaybeConstant<() => TInputs>`): a constant structure or a zero-argument
function producing one.  A function-valued description is modelled by what it
returns at each invocation; the argument is the access generation at which the
getter invokes it. -/
inductive Desc where
  | const : Node → Desc
  | fn : (Nat → Node) → Desc

/-- Source getter `structure` (InputGroup.ts lines 148-152): if the stored
content description is a function it is invoked here (at the current access
generation), otherwise it is returned unchanged. -/
def structureAt : Desc → Nat → Node
  | .const n, _ => n
  | .fn f, t => f t

/-- Source getter `inputs` (InputGroup.ts lines 57-60):
`unwrapGroups(this.structure)`. -/
def inputsAt (d : Desc) (t : Nat) : Shape :=
  unwrapGroups (structureAt d t)

/-- Source getter `flattedInputs` (InputGroup.ts lines 133-136):
`flattenInputs(this.inputs)` with a fresh empty buffer. -/
def flattedInputsAt (d : Desc) (t : Nat) : List Nat :=
  flattenInputs (inputsAt d t) []

/-- Source getters `value` / `inputValue` / `normalizedInputValue`
(InputGroup.ts lines 70-95): `getValueFromShape(this.inputs, mode)`. -/
def valueAt (w : World) (d : Desc) (t : Nat) (m : Mode) : Val :=
  getValueFromShape w (inputsAt d t) m

/-- Source getter `flattenedStructure` (InputGroup.ts lines 158-161):
`flattenStructure(this.structure)` with a fresh empty buffer. -/
def flattenedStructureAt (d : Desc) (t : Nat) : List StructItem :=
  flattenStructure (structureAt d t) []

/-- Source method `reset` (InputGroup.ts lines 102-111):
`resetShape(this.structure, args && args.value)`; an absent argument object or
an absent `value` key passes `undefined`. -/
def groupReset (d : Desc) (t : Nat) (v : Val) : List Call :=
  resetShape (structureAt d t) v

/-- Source method `confirm` (InputGroup.ts lines 119-122):
`confirmShape(this.structure, args && args.value)`. -/
def groupConfirm (d : Desc) (t : Nat) (v : Val) : List Call :=
  confirmShape (structureAt d t) v

mutual

/-- Specification-side description of the reachable leaves (§3 invariant,
claim C3): the leaf nodes obtainable by recursively unwrapping a content
structure through arrays, objects and nested groups, in traversal order. -/
def leavesOf : Node → List Nat
  | .input i => [i]
  | .group s => leavesOf s
  | .arr xs => leavesOfList xs
  | .obj fs => leavesOfFields fs

def leavesOfList : List Node → List Nat
  | [] => []
  | x :: xs => leavesOf x ++ leavesOfList xs

def leavesOfFields : List (String × Node) → List Nat
  | [] => []
  | f :: fs => leavesOf f.2 ++ leavesOfFields fs

end

/-- One step of a path into a structure: an array index or an object key. -/
inductive PathElem where
  | idx : Nat → PathElem
  | key : String → PathElem
deriving DecidableEq

mutual

/-- Every leaf occurrence of a content structure with the container path that
leads to it (group wrappers contribute no path step), in traversal order. -/
def leafOccurrences : Node → List (Nat × List PathElem)
  | .input i => [(i, [])]
  | .group s => leafOccurrences s
  | .arr xs => leafOccurrencesList xs 0
  | .obj fs => leafOccurrencesFields fs

def leafOccurrencesList : List Node → Nat → List (Nat × List PathElem)
  | [], _ => []
  | x :: xs, i =>
    (leafOccurrences x).map (fun q => (q.1, PathElem.idx i :: q.2))
      ++ leafOccurrencesList xs (i + 1)

def leafOccurrencesFields : List (String × Node) → List (Nat × List PathElem)
  | [] => []
  | f :: fs =>
    (leafOccurrences f.2).map (fun q => (q.1, PathElem.key f.1 :: q.2))
      ++ leafOccurrencesFields fs

end

/-- One lock-step descent step of `resetShape` / `confirmShape`:
`value && value[indexOrKey]`. -/
def descStep (v : Val) : PathElem → Val
  | .idx i => andIndexNat v i
  | .key k => andIndexStr v k

/-- The value the lock-step descent of `resetShape` / `confirmShape` delivers
at the end of a path. -/
def jsDescend : Val → List PathElem → Val
  | v, [] => v
  | v, e :: p => jsDescend (descStep v e) p

/-- Specification-side strict path lookup, following the words of claim C4: a path
has a value in `v` exactly when each step goes through the matching key of an
object or the matching index of an array; anything else means the path is
missing from `v`. -/
def strictLookup : Val → List PathElem → Option Val
  | v, [] => some v
  | .vObj fs, .key k :: p =>
    match fs.find? (fun f => f.1 = k) with
    | some f => strictLookup f.2 p
    | none => none
  | .vArr xs, .idx i :: p =>
    match xs.get? i with
    | some w => strictLookup w p
    | none => none
  | _, _ :: _ => none

/-- A descent step on which the JS lock-step descent and the strict lookup
agree: an absent value, a matching container, or a truthy primitive (which
indexes to `undefined` either way).  Falsy present values (`null`, `false`,
`0`, `""`), kind-mismatched containers and strings are excluded. -/
def stepSafe : Val → PathElem → Bool
  | .vUndefined, _ => true
  | .vArr _, .idx _ => true
  | .vObj _, .key _ => true
  | .vBool b, _ => b
  | .vNum n, _ => !(n == 0)
  | _, _ => false

/-- A path whose every descent step is safe in the sense of `stepSafe`. -/
def pathSafe : Val → List PathElem → Bool
  | _, [] => true
  | v, e :: p => stepSafe v e && pathSafe (descStep v e) p

/-- Modelled from the spec (§6, and demo/dev/TextInput.tsx): the `next` option
of the `confirm({ value?, next? })` operation of the external leaf requests advancing focus
to the next input exactly when it is truthy; an absent option requests
nothing. -/
def advanceRequested (next : Val) : Bool := next.truthy

/-- Whether a call would trigger the "advance focus to the next input"
behavior of the leaf: only a `confirm` call with a truthy `next` option does. -/
def callAdvances : Call → Bool
  | .reset _ _ => false
  | .confirm _ _ next => advanceRequested next

mutual

/-- The world transformation of `resetShape`, parametric in the external
own reset behavior `app` of the external leaf (the only way the recursion touches a leaf is
the call it issues to it). -/
def resetShapeW (app : World → Call → World) : Node → Val → World → World
  | .input i, v, w => app w (.reset i v)
  | .group s, v, w => resetShapeW app s v w
  | .arr xs, v, w => resetShapeListW app xs 0 v w
  | .obj fs, v, w => resetShapeFieldsW app fs v w

def resetShapeListW (app : World → Call → World) : List Node → Nat → Val → World → World
  | [], _, _, w => w
  | x :: xs, i, v, w => resetShapeListW app xs (i + 1) v (resetShapeW app x (andIndexNat v i) w)

def resetShapeFieldsW (app : World → Call → World) : List (String × Node) → Val → World → World
  | [], _, w => w
  | f :: fs, v, w => resetShapeFieldsW app fs v (resetShapeW app f.2 (andIndexStr v f.1) w)

end

mutual

/-- The world transformation of `confirmShape`, parametric in the external
own confirm behavior of the external leaf. -/
def confirmShapeW (app : World → Call → World) : Node → Val → World → World
  | .input i, v, w => app w (.confirm i v .vUndefined)
  | .group s, v, w => confirmShapeW app s v w
  | .arr xs, v, w => confirmShapeListW app xs 0 v w
  | .obj fs, v, w => confirmShapeFieldsW app fs v w

def confirmShapeListW (app : World → Call → World) : List Node → Nat → Val → World → World
  | [], _, _, w => w
  | x :: xs, i, v, w => confirmShapeListW app xs (i + 1) v (confirmShapeW app x (andIndexNat v i) w)

def confirmShapeFieldsW (app : World → Call → World) : List (String × Node) → Val → World → World
  | [], _, w => w
  | f :: fs, v, w => confirmShapeFieldsW app fs v (confirmShapeW app f.2 (andIndexStr v f.1) w)

end

mutual

/-- `getValueFromShape` with the leaf-attribute store threaded through the
computation in evaluation order, so that its effect on the store is visible:
reading a leaf attribute returns the store unchanged (the attributes are
read-only on the external leaf, §6). -/
def getValueFromShapeT : Shape → Mode → World → Val × World
  | .input i, m, w => (w i m, w)
  | .arr xs, m, w =>
    let r := getValueFromShapeListT xs m w
    (.vArr r.1, r.2)
  | .obj fs, m, w =>
    let r := getValueFromShapeFieldsT fs m w
    (.vObj r.1, r.2)

def getValueFromShapeListT : List Shape → Mode → World → List Val × World
  | [], _, w => ([], w)
  | x :: xs, m, w =>
    let r := getValueFromShapeT x m w
    let rs := getValueFromShapeListT xs m r.2
    (r.1 :: rs.1, rs.2)

def getValueFromShapeFieldsT : List (String × Shape) → Mode → World → List (String × Val) × World
  | [], _, w => ([], w)
  | f :: fs, m, w =>
    let r := getValueFromShapeT f.2 m w
    let rs := getValueFromShapeFieldsT fs m r.2
    ((f.1, r.1) :: rs.1, rs.2)

end

mutual

/-- Source `resetShape` under leaves that may throw: `beh c = some e` means
the leaf call `c` raises the error `e`.  The result is the list of leaf calls
actually executed and the error, if any, that escaped.  The translation
follows the synchronous source exactly: no branch catches, and an error
raised inside `inputs.map` / the `for … in` loop stops the remaining
iterations (lines 202-217). -/
def resetShapeRun {E : Type} (beh : Call → Option E) : Node → Val → List Call × Option E
  | .input i, v =>
    let c := Call.reset i v
    ([c], beh c)
  | .group s, v => resetShapeRun beh s v
  | .arr xs, v => resetShapeListRun beh xs 0 v
  | .obj fs, v => resetShapeFieldsRun beh fs v

def resetShapeListRun {E : Type} (beh : Call → Option E) :
    List Node → Nat → Val → List Call × Option E
  | [], _, _ => ([], none)
  | x :: xs, i, v =>
    match resetShapeRun beh x (andIndexNat v i) with
    | (cs, some e) => (cs, some e)
    | (cs, none) =>
      let r := resetShapeListRun beh xs (i + 1) v
      (cs ++ r.1, r.2)

def resetShapeFieldsRun {E : Type} (beh : Call → Option E) :
    List (String × Node) → Val → List Call × Option E
  | [], _ => ([], none)
  | f :: fs, v =>
    match resetShapeRun beh f.2 (andIndexStr v f.1) with
    | (cs, some e) => (cs, some e)
    | (cs, none) =>
      let r := resetShapeFieldsRun beh fs v
      (cs ++ r.1, r.2)

end

mutual

/-- Source `confirmShape` under leaves that may throw, as `resetShapeRun`
(lines 225-240). -/
def confirmShapeRun {E : Type} (beh : Call → Option E) : Node → Val → List Call × Option E
  | .input i, v =>
    let c := Call.confirm i v .vUndefined
    ([c], beh c)
  | .group s, v => confirmShapeRun beh s v
  | .arr xs, v => confirmShapeListRun beh xs 0 v
  | .obj fs, v => confirmShapeFieldsRun beh fs v

def confirmShapeListRun {E : Type} (beh : Call → Option E) :
    List Node → Nat → Val → List Call × Option E
  | [], _, _ => ([], none)
  | x :: xs, i, v =>
    match confirmShapeRun beh x (andIndexNat v i) with
    | (cs, some e) => (cs, some e)
    | (cs, none) =>
      let r := confirmShapeListRun beh xs (i + 1) v
      (cs ++ r.1, r.2)

def confirmShapeFieldsRun {E : Type} (beh : Call → Option E) :
    List (String × Node) → Val → List Call × Option E
  | [], _ => ([], none)
  | f :: fs, v =>
    match confirmShapeRun beh f.2 (andIndexStr v f.1) with
    | (cs, some e) => (cs, some e)
    | (cs, none) =>
      let r := confirmShapeFieldsRun beh fs v
      (cs ++ r.1, r.2)

end

/-- Executing a list of leaf calls in order against possibly-throwing leaves:
the calls executed (the failing call included) and the first error. -/
def runTrace {E : Type} (beh : Call → Option E) : List Call → List Call × Option E
  | [] => ([], none)
  | c :: cs =>
    match beh c with
    | some e => ([c], some e)
    | none =>
      let r := runTrace beh cs
      (c :: r.1, r.2)

/-- Modelled from the spec (§4.4 and §3; `src/utils/lookup.ts` and
`src/utils/weakProp.ts` are not among the sources): the process-wide
membership index, as the predicate "group `g` is currently recorded as a
container of leaf `l`". -/
def MembershipIndex : Type := Nat → Nat → Bool

/-- Modelled from the spec (§4.4): recompute the membership of group `g` from
its freshly computed flattened leaf set — `g` is recorded for exactly the
leaves of that set, `g` is removed from every leaf no longer present, and the
records of other groups are untouched. -/
def updateLookup (g : Nat) (leaves : List Nat) (idx : MembershipIndex) : MembershipIndex :=
  fun l g2 => if g2 = g then leaves.contains l else idx l g2

/-- Modelled from the spec (§3, §4.4): the index is a weak side table keyed by
leaf — reclaiming the leaves that are no longer referenced anywhere else
discards their entries entirely. -/
def collectLeaves (liveLeaf : Nat → Bool) (idx : MembershipIndex) : MembershipIndex :=
  fun l g2 => liveLeaf l && idx l g2

/-- Modelled from the spec (§3 lifecycle, §4.4): the records of a group are torn
down when the group itself becomes unreachable, so discarded groups do not
accumulate as stale references. -/
def collectGroups (liveGroup : Nat → Bool) (idx : MembershipIndex) : MembershipIndex :=
  fun l g2 => idx l g2 && liveGroup g2

/-- Claim C4 as stated, over the embedding: every leaf occurrence receives the
strict path lookup of the supplied value tree, or no value when its path is
missing from the value tree. -/
def resetFollowsStrictLookup : Prop :=
  ∀ (n : Node) (v : Val),
    resetShape n v
      = (leafOccurrences n).map (fun q => Call.reset q.1 ((strictLookup v q.2).getD .vUndefined))

/-- Concrete fixture: the leaf behavior that throws the error `7` from leaf
`1` and succeeds on every other leaf. -/
def behFailsOn1 : Call → Option Nat :=
  fun c => if c.callee = 1 then some 7 else none

/-- Concrete fixture: a three-leaf array structure. -/
def threeLeafArr : Node := .arr [.input 0, .input 1, .input 2]

/-- Concrete fixture: a description function returning different trees on
consecutive invocations. -/
def flipDesc : Nat → Node :=
  fun t => if t = 0 then .input 0 else .arr []

/-- Concrete fixture: a world in which every leaf attribute reads as `null`. -/
def nullWorld : World := fun _ _ => .vNull

/-- Concrete fixture: a membership index in which every group records exactly
the leaf `5`. -/
def idxFixture : MembershipIndex := fun l _ => [5].contains l

mutual

theorem shapeResume_id : (s : Shape) → shapeResume s = s
  | .input _ => rfl
  | .arr xs => congrArg Shape.arr (shapeResumeList_id xs)
  | .obj fs => congrArg Shape.obj (shapeResumeFields_id fs)

theorem shapeResumeList_id : (xs : List Shape) → shapeResumeList xs = xs
  | [] => rfl
  | x :: xs => by rw [shapeResumeList, shapeResume_id x, shapeResumeList_id xs]

theorem shapeResumeFields_id : (fs : List (String × Shape)) → shapeResumeFields fs = fs
  | [] => rfl
  | f :: fs => by rw [shapeResumeFields, shapeResume_id f.2, shapeResumeFields_id fs]

end

mutual

theorem unwrapGroups_toNode : (s : Shape) → unwrapGroups (Shape.toNode s) = s
  | .input _ => rfl
  | .arr xs => congrArg Shape.arr (unwrapGroupsList_toNode xs)
  | .obj fs => congrArg Shape.obj (unwrapGroupsFields_toNode fs)

theorem unwrapGroupsList_toNode :
    (xs : List Shape) → unwrapGroupsList (Shape.toNodeList xs) = xs
  | [] => rfl
  | x :: xs => by
    rw [Shape.toNodeList, unwrapGroupsList, unwrapGroups_toNode x, unwrapGroupsList_toNode xs]

theorem unwrapGroupsFields_toNode :
    (fs : List (String × Shape)) → unwrapGroupsFields (Shape.toNodeFields fs) = fs
  | [] => rfl
  | f :: fs => by
    rw [Shape.toNodeFields, unwrapGroupsFields, unwrapGroups_toNode f.2,
      unwrapGroupsFields_toNode fs]

end

/-- Fidelity of the `group` branch of the embedded `unwrapGroups`: it equals
the source expression `unwrapGroups(inputs.inputs)`, i.e. `unwrapGroups` applied once
more to the collapsed structure of the subgroup. -/
theorem unwrapGroups_group_source (s : Node) :
    unwrapGroups (.group s) = unwrapGroups (Shape.toNode (unwrapGroups s)) := by
  rw [unwrapGroups, shapeResume_id, unwrapGroups_toNode]

mutual

theorem flattenInputs_buffer : (s : Shape) → (buf : List Nat) →
    flattenInputs s buf = buf ++ flattenInputs s []
  | .input _, _ => rfl
  | .arr xs, buf => by
    rw [flattenInputs, flattenInputs, flattenInputsList_buffer xs buf]
  | .obj fs, buf => by
    rw [flattenInputs, flattenInputs, flattenInputsFields_buffer fs buf]

theorem flattenInputsList_buffer : (xs : List Shape) → (buf : List Nat) →
    flattenInputsList xs buf = buf ++ flattenInputsList xs []
  | [], _ => by simp [flattenInputsList]
  | x :: xs, buf => by
    rw [flattenInputsList, flattenInputsList,
      flattenInputsList_buffer xs (flattenInputs x buf),
      flattenInputsList_buffer xs (flattenInputs x []),
      flattenInputs_buffer x buf]
    simp

theorem flattenInputsFields_buffer : (fs : List (String × Shape)) → (buf : List Nat) →
    flattenInputsFields fs buf = buf ++ flattenInputsFields fs []
  | [], _ => by simp [flattenInputsFields]
  | f :: fs, buf => by
    rw [flattenInputsFields, flattenInputsFields,
      flattenInputsFields_buffer fs (flattenInputs f.2 buf),
      flattenInputsFields_buffer fs (flattenInputs f.2 []),
      flattenInputs_buffer f.2 buf]
    simp

end

mutual

theorem flattenInputs_unwrap : (n : Node) → flattenInputs (unwrapGroups n) [] = leavesOf n
  | .input _ => rfl
  | .group s => by
    rw [unwrapGroups, shapeResume_id, leavesOf, flattenInputs_unwrap s]
  | .arr xs => by
    rw [unwrapGroups, leavesOf, flattenInputs, flattenInputsList_unwrap xs]
  | .obj fs => by
    rw [unwrapGroups, leavesOf, flattenInputs, flattenInputsFields_unwrap fs]

theorem flattenInputsList_unwrap : (xs : List Node) →
    flattenInputsList (unwrapGroupsList xs) [] = leavesOfList xs
  | [] => rfl
  | x :: xs => by
    rw [unwrapGroupsList, leavesOfList, flattenInputsList,
      flattenInputsList_buffer (unwrapGroupsList xs) (flattenInputs (unwrapGroups x) []),
      flattenInputs_unwrap x, flattenInputsList_unwrap xs]

theorem flattenInputsFields_unwrap : (fs : List (String × Node)) →
    flattenInputsFields (unwrapGroupsFields fs) [] = leavesOfFields fs
  | [] => rfl
  | f :: fs => by
    rw [unwrapGroupsFields, leavesOfFields, flattenInputsFields,
      flattenInputsFields_buffer (unwrapGroupsFields fs) (flattenInputs (unwrapGroups f.2) []),
      flattenInputs_unwrap f.2, flattenInputsFields_unwrap fs]

end

mutual

theorem leafOccurrences_fst : (n : Node) → (leafOccurrences n).map Prod.fst = leavesOf n
  | .input _ => rfl
  | .group s => by rw [leafOccurrences, leavesOf, leafOccurrences_fst s]
  | .arr xs => by rw [leafOccurrences, leavesOf, leafOccurrencesList_fst xs 0]
  | .obj fs => by rw [leafOccurrences, leavesOf, leafOccurrencesFields_fst fs]

theorem leafOccurrencesList_fst : (xs : List Node) → (i : Nat) →
    (leafOccurrencesList xs i).map Prod.fst = leavesOfList xs
  | [], _ => rfl
  | x :: xs, i => by
    rw [leafOccurrencesList, leavesOfList]
    simp only [List.map_append, List.map_map]
    rw [leafOccurrencesList_fst xs (i + 1),
      show (Prod.fst ∘ fun q => (q.1, PathElem.idx i :: q.2) : (Nat × List PathElem) → Nat) = Prod.fst from rfl,
      leafOccurrences_fst x]

theorem leafOccurrencesFields_fst : (fs : List (String × Node)) →
    (leafOccurrencesFields fs).map Prod.fst = leavesOfFields fs
  | [] => rfl
  | f :: fs => by
    rw [leafOccurrencesFields, leavesOfFields]
    simp only [List.map_append, List.map_map]
    rw [leafOccurrencesFields_fst fs,
      show (Prod.fst ∘ fun q => (q.1, PathElem.key f.1 :: q.2) : (Nat × List PathElem) → Nat) = Prod.fst from rfl,
      leafOccurrences_fst f.2]

end

theorem jsDescend_undefined : (p : List PathElem) → jsDescend .vUndefined p = .vUndefined
  | [] => rfl
  | e :: p => by
    have h : descStep .vUndefined e = .vUndefined := by cases e <;> rfl
    rw [jsDescend, h, jsDescend_undefined p]

mutual

theorem resetShape_occurrences : (n : Node) → (v : Val) →
    resetShape n v
      = (leafOccurrences n).map (fun q => Call.reset q.1 (jsDescend v q.2))
  | .input _, _ => rfl
  | .group s, v => by
    rw [resetShape, leafOccurrences, resetShape_occurrences s v]
  | .arr xs, v => by
    rw [resetShape, leafOccurrences, resetShapeList_occurrences xs 0 v]
  | .obj fs, v => by
    rw [resetShape, leafOccurrences, resetShapeFields_occurrences fs v]

theorem resetShapeList_occurrences : (xs : List Node) → (i : Nat) → (v : Val) →
    resetShapeList xs i v
      = (leafOccurrencesList xs i).map (fun q => Call.reset q.1 (jsDescend v q.2))
  | [], _, _ => rfl
  | x :: xs, i, v => by
    rw [resetShapeList, leafOccurrencesList]
    simp only [List.map_append, List.map_map]
    rw [resetShape_occurrences x (andIndexNat v i), resetShapeList_occurrences xs (i + 1) v]
    rfl

theorem resetShapeFields_occurrences : (fs : List (String × Node)) → (v : Val) →
    resetShapeFields fs v
      = (leafOccurrencesFields fs).map (fun q => Call.reset q.1 (jsDescend v q.2))
  | [], _ => rfl
  | f :: fs, v => by
    rw [resetShapeFields, leafOccurrencesFields]
    simp only [List.map_append, List.map_map]
    rw [resetShape_occurrences f.2 (andIndexStr v f.1), resetShapeFields_occurrences fs v]
    rfl

end

mutual

theorem confirmShape_occurrences : (n : Node) → (v : Val) →
    confirmShape n v
      = (leafOccurrences n).map (fun q => Call.confirm q.1 (jsDescend v q.2) .vUndefined)
  | .input _, _ => rfl
  | .group s, v => by
    rw [confirmShape, leafOccurrences, confirmShape_occurrences s v]
  | .arr xs, v => by
    rw [confirmShape, leafOccurrences, confirmShapeList_occurrences xs 0 v]
  | .obj fs, v => by
    rw [confirmShape, leafOccurrences, confirmShapeFields_occurrences fs v]

theorem confirmShapeList_occurrences : (xs : List Node) → (i : Nat) → (v : Val) →
    confirmShapeList xs i v
      = (leafOccurrencesList xs i).map (fun q => Call.confirm q.1 (jsDescend v q.2) .vUndefined)
  | [], _, _ => rfl
  | x :: xs, i, v => by
    rw [confirmShapeList, leafOccurrencesList]
    simp only [List.map_append, List.map_map]
    rw [confirmShape_occurrences x (andIndexNat v i), confirmShapeList_occurrences xs (i + 1) v]
    rfl

theorem confirmShapeFields_occurrences : (fs : List (String × Node)) → (v : Val) →
    confirmShapeFields fs v
      = (leafOccurrencesFields fs).map (fun q => Call.confirm q.1 (jsDescend v q.2) .vUndefined)
  | [], _ => rfl
  | f :: fs, v => by
    rw [confirmShapeFields, leafOccurrencesFields]
    simp only [List.map_append, List.map_map]
    rw [confirmShape_occurrences f.2 (andIndexStr v f.1), confirmShapeFields_occurrences fs v]
    rfl

end

mutual

theorem resetShapeW_foldl : (app : World → Call → World) → (n : Node) → (v : Val) →
    (w : World) → resetShapeW app n v w = (resetShape n v).foldl app w
  | _, .input _, _, _ => rfl
  | app, .group s, v, w => by
    rw [resetShapeW, resetShape, resetShapeW_foldl app s v w]
  | app, .arr xs, v, w => by
    rw [resetShapeW, resetShape, resetShapeListW_foldl app xs 0 v w]
  | app, .obj fs, v, w => by
    rw [resetShapeW, resetShape, resetShapeFieldsW_foldl app fs v w]

theorem resetShapeListW_foldl : (app : World → Call → World) → (xs : List Node) → (i : Nat) →
    (v : Val) → (w : World) → resetShapeListW app xs i v w = (resetShapeList xs i v).foldl app w
  | _, [], _, _, _ => rfl
  | app, x :: xs, i, v, w => by
    rw [resetShapeListW, resetShapeList, List.foldl_append,
      resetShapeW_foldl app x (andIndexNat v i) w,
      resetShapeListW_foldl app xs (i + 1) v]

theorem resetShapeFieldsW_foldl : (app : World → Call → World) → (fs : List (String × Node)) →
    (v : Val) → (w : World) → resetShapeFieldsW app fs v w = (resetShapeFields fs v).foldl app w
  | _, [], _, _ => rfl
  | app, f :: fs, v, w => by
    rw [resetShapeFieldsW, resetShapeFields, List.foldl_append,
      resetShapeW_foldl app f.2 (andIndexStr v f.1) w,
      resetShapeFieldsW_foldl app fs v]

end

mutual

theorem confirmShapeW_foldl : (app : World → Call → World) → (n : Node) → (v : Val) →
    (w : World) → confirmShapeW app n v w = (confirmShape n v).foldl app w
  | _, .input _, _, _ => rfl
  | app, .group s, v, w => by
    rw [confirmShapeW, confirmShape, confirmShapeW_foldl app s v w]
  | app, .arr xs, v, w => by
    rw [confirmShapeW, confirmShape, confirmShapeListW_foldl app xs 0 v w]
  | app, .obj fs, v, w => by
    rw [confirmShapeW, confirmShape, confirmShapeFieldsW_foldl app fs v w]

theorem confirmShapeListW_foldl : (app : World → Call → World) → (xs : List Node) → (i : Nat) →
    (v : Val) → (w : World) →
    confirmShapeListW app xs i v w = (confirmShapeList xs i v).foldl app w
  | _, [], _, _, _ => rfl
  | app, x :: xs, i, v, w => by
    rw [confirmShapeListW, confirmShapeList, List.foldl_append,
      confirmShapeW_foldl app x (andIndexNat v i) w,
      confirmShapeListW_foldl app xs (i + 1) v]

theorem confirmShapeFieldsW_foldl : (app : World → Call → World) →
    (fs : List (String × Node)) → (v : Val) → (w : World) →
    confirmShapeFieldsW app fs v w = (confirmShapeFields fs v).foldl app w
  | _, [], _, _ => rfl
  | app, f :: fs, v, w => by
    rw [confirmShapeFieldsW, confirmShapeFields, List.foldl_append,
      confirmShapeW_foldl app f.2 (andIndexStr v f.1) w,
      confirmShapeFieldsW_foldl app fs v]

end

mutual

theorem getValueFromShapeT_pure : (s : Shape) → (m : Mode) → (w : World) →
    getValueFromShapeT s m w = (getValueFromShape w s m, w)
  | .input _, _, _ => rfl
  | .arr xs, m, w => by
    rw [getValueFromShapeT, getValueFromShape, getValueFromShapeListT_pure xs m w]
  | .obj fs, m, w => by
    rw [getValueFromShapeT, getValueFromShape, getValueFromShapeFieldsT_pure fs m w]

theorem getValueFromShapeListT_pure : (xs : List Shape) → (m : Mode) → (w : World) →
    getValueFromShapeListT xs m w = (getValueFromShapeList w xs m, w)
  | [], _, _ => rfl
  | x :: xs, m, w => by
    rw [getValueFromShapeListT, getValueFromShapeList, getValueFromShapeT_pure x m w,
      getValueFromShapeListT_pure xs m w]

theorem getValueFromShapeFieldsT_pure : (fs : List (String × Shape)) → (m : Mode) → (w : World) →
    getValueFromShapeFieldsT fs m w = (getValueFromShapeFields w fs m, w)
  | [], _, _ => rfl
  | f :: fs, m, w => by
    rw [getValueFromShapeFieldsT, getValueFromShapeFields, getValueFromShapeT_pure f.2 m w,
      getValueFromShapeFieldsT_pure fs m w]

end

theorem runTrace_cons_err {E : Type} (beh : Call → Option E) (c : Call) (cs : List Call) (e : E)
    (h : beh c = some e) : runTrace beh (c :: cs) = ([c], some e) := by
  rw [runTrace, h]

theorem runTrace_cons_ok {E : Type} (beh : Call → Option E) (c : Call) (cs : List Call)
    (h : beh c = none) :
    runTrace beh (c :: cs) = (c :: (runTrace beh cs).1, (runTrace beh cs).2) := by
  rw [runTrace, h]

theorem runTrace_append_err {E : Type} (beh : Call → Option E) (e : E) :
    (l1 l2 : List Call) → (runTrace beh l1).2 = some e →
    runTrace beh (l1 ++ l2) = runTrace beh l1
  | [], _, h => by simp [runTrace] at h
  | c :: cs, l2, h => by
    cases hb : beh c with
    | some e2 =>
      rw [List.cons_append, runTrace_cons_err beh c _ e2 hb, runTrace_cons_err beh c cs e2 hb]
    | none =>
      rw [runTrace_cons_ok beh c cs hb] at h
      rw [List.cons_append, runTrace_cons_ok beh c _ hb, runTrace_cons_ok beh c cs hb,
        runTrace_append_err beh e cs l2 h]

theorem runTrace_append_ok {E : Type} (beh : Call → Option E) :
    (l1 l2 : List Call) → (runTrace beh l1).2 = none →
    runTrace beh (l1 ++ l2)
      = ((runTrace beh l1).1 ++ (runTrace beh l2).1, (runTrace beh l2).2)
  | [], l2, _ => by simp [runTrace]
  | c :: cs, l2, h => by
    cases hb : beh c with
    | some e2 => rw [runTrace_cons_err beh c cs e2 hb] at h; exact absurd h (by simp)
    | none =>
      rw [runTrace_cons_ok beh c cs hb] at h
      rw [List.cons_append, runTrace_cons_ok beh c _ hb, runTrace_cons_ok beh c cs hb,
        runTrace_append_ok beh cs l2 h]
      simp

theorem runTrace_all_ok {E : Type} (beh : Call → Option E) :
    (l : List Call) → (∀ c ∈ l, beh c = none) → runTrace beh l = (l, none)
  | [], _ => rfl
  | c :: cs, h => by
    rw [runTrace_cons_ok beh c cs (h c (by simp)),
      runTrace_all_ok beh cs (fun c2 hc2 => h c2 (by simp [hc2]))]

theorem runTrace_first_err {E : Type} (beh : Call → Option E) (e : E) (c : Call)
    (post : List Call) (hc : beh c = some e) :
    (pre : List Call) → (∀ c2 ∈ pre, beh c2 = none) →
    runTrace beh (pre ++ c :: post) = (pre ++ [c], some e)
  | [], _ => by simpa using runTrace_cons_err beh c post e hc
  | c2 :: pre, h => by
    rw [List.cons_append, runTrace_cons_ok beh c2 _ (h c2 (by simp)),
      runTrace_first_err beh e c post hc pre (fun c3 hc3 => h c3 (by simp [hc3]))]
    simp

mutual

theorem resetShapeRun_eq : {E : Type} → (beh : Call → Option E) → (n : Node) → (v : Val) →
    resetShapeRun beh n v = runTrace beh (resetShape n v)
  | _, beh, .input i, v => by
    cases hb : beh (Call.reset i v) <;>
      simp [resetShapeRun, resetShape, runTrace, hb]
  | _, beh, .group s, v => by
    rw [resetShapeRun, resetShape, resetShapeRun_eq beh s v]
  | _, beh, .arr xs, v => by
    rw [resetShapeRun, resetShape, resetShapeListRun_eq beh xs 0 v]
  | _, beh, .obj fs, v => by
    rw [resetShapeRun, resetShape, resetShapeFieldsRun_eq beh fs v]

theorem resetShapeListRun_eq : {E : Type} → (beh : Call → Option E) → (xs : List Node) →
    (i : Nat) → (v : Val) → resetShapeListRun beh xs i v = runTrace beh (resetShapeList xs i v)
  | _, _, [], _, _ => rfl
  | _, beh, x :: xs, i, v => by
    rw [resetShapeListRun, resetShapeList, resetShapeRun_eq beh x (andIndexNat v i)]
    rcases hrt : runTrace beh (resetShape x (andIndexNat v i)) with ⟨cs, oe⟩
    cases oe with
    | some e =>
      rw [runTrace_append_err beh e _ _ (by rw [hrt])]
      rw [hrt]
    | none =>
      rw [runTrace_append_ok beh _ _ (by rw [hrt])]
      rw [hrt, resetShapeListRun_eq beh xs (i + 1) v]

theorem resetShapeFieldsRun_eq : {E : Type} → (beh : Call → Option E) →
    (fs : List (String × Node)) → (v : Val) →
    resetShapeFieldsRun beh fs v = runTrace beh (resetShapeFields fs v)
  | _, _, [], _ => rfl
  | _, beh, f :: fs, v => by
    rw [resetShapeFieldsRun, resetShapeFields, resetShapeRun_eq beh f.2 (andIndexStr v f.1)]
    rcases hrt : runTrace beh (resetShape f.2 (andIndexStr v f.1)) with ⟨cs, oe⟩
    cases oe with
    | some e =>
      rw [runTrace_append_err beh e _ _ (by rw [hrt])]
      rw [hrt]
    | none =>
      rw [runTrace_append_ok beh _ _ (by rw [hrt])]
      rw [hrt, resetShapeFieldsRun_eq beh fs v]

end

mutual

theorem confirmShapeRun_eq : {E : Type} → (beh : Call → Option E) → (n : Node) → (v : Val) →
    confirmShapeRun beh n v = runTrace beh (confirmShape n v)
  | _, beh, .input i, v => by
    cases hb : beh (Call.confirm i v .vUndefined) <;>
      simp [confirmShapeRun, confirmShape, runTrace, hb]
  | _, beh, .group s, v => by
    rw [confirmShapeRun, confirmShape, confirmShapeRun_eq beh s v]
  | _, beh, .arr xs, v => by
    rw [confirmShapeRun, confirmShape, confirmShapeListRun_eq beh xs 0 v]
  | _, beh, .obj fs, v => by
    rw [confirmShapeRun, confirmShape, confirmShapeFieldsRun_eq beh fs v]

theorem confirmShapeListRun_eq : {E : Type} → (beh : Call → Option E) → (xs : List Node) →
    (i : Nat) → (v : Val) →
    confirmShapeListRun beh xs i v = runTrace beh (confirmShapeList xs i v)
  | _, _, [], _, _ => rfl
  | _, beh, x :: xs, i, v => by
    rw [confirmShapeListRun, confirmShapeList, confirmShapeRun_eq beh x (andIndexNat v i)]
    rcases hrt : runTrace beh (confirmShape x (andIndexNat v i)) with ⟨cs, oe⟩
    cases oe with
    | some e =>
      rw [runTrace_append_err beh e _ _ (by rw [hrt])]
      rw [hrt]
    | none =>
      rw [runTrace_append_ok beh _ _ (by rw [hrt])]
      rw [hrt, confirmShapeListRun_eq beh xs (i + 1) v]

theorem confirmShapeFieldsRun_eq : {E : Type} → (beh : Call → Option E) →
    (fs : List (String × Node)) → (v : Val) →
    confirmShapeFieldsRun beh fs v = runTrace beh (confirmShapeFields fs v)
  | _, _, [], _ => rfl
  | _, beh, f :: fs, v => by
    rw [confirmShapeFieldsRun, confirmShapeFields, confirmShapeRun_eq beh f.2 (andIndexStr v f.1)]
    rcases hrt : runTrace beh (confirmShape f.2 (andIndexStr v f.1)) with ⟨cs, oe⟩
    cases oe with
    | some e =>
      rw [runTrace_append_err beh e _ _ (by rw [hrt])]
      rw [hrt]
    | none =>
      rw [runTrace_append_ok beh _ _ (by rw [hrt])]
      rw [hrt, confirmShapeFieldsRun_eq beh fs v]

end

theorem lookupField_find : (fs : List (String × Val)) → (k : String) →
    lookupField fs k = ((fs.find? (fun f => f.1 = k)).map Prod.snd).getD .vUndefined
  | [], _ => rfl
  | f :: fs, k => by
    by_cases h : f.1 = k
    · simp [lookupField, List.find?_cons, h]
    · simp [lookupField, List.find?_cons, h, lookupField_find fs k]

theorem pathSafe_agree : (p : List PathElem) → (v : Val) → pathSafe v p = true →
    jsDescend v p = (strictLookup v p).getD .vUndefined
  | [], v, _ => by cases v <;> rfl
  | e :: p, v, h => by
    rw [pathSafe, Bool.and_eq_true] at h
    rw [jsDescend]
    cases v with
    | vUndefined =>
      have hd : descStep Val.vUndefined e = Val.vUndefined := by cases e <;> rfl
      rw [hd, jsDescend_undefined]
      cases e <;> rfl
    | vNull => simp [stepSafe] at h
    | vBool b =>
      cases b with
      | false => simp [stepSafe] at h
      | true =>
        have hd : descStep (Val.vBool true) e = Val.vUndefined := by
          cases e <;> simp [descStep, andIndexNat, andIndexStr, Val.falsy, jsIndexNat, jsIndexStr]
        rw [hd, jsDescend_undefined]
        cases e <;> rfl
    | vNum n =>
      have hn : ¬(n = 0) := by
        intro hz
        rw [hz] at h
        simp [stepSafe] at h
      have hd : descStep (Val.vNum n) e = Val.vUndefined := by
        cases e <;> simp [descStep, andIndexNat, andIndexStr, Val.falsy, hn, jsIndexNat, jsIndexStr]
      rw [hd, jsDescend_undefined]
      cases e <;> rfl
    | vStr s => simp [stepSafe] at h
    | vArr xs =>
      cases e with
      | key k => simp [stepSafe] at h
      | idx i =>
        cases hg : xs.get? i with
        | some wv =>
          have hd : descStep (Val.vArr xs) (.idx i) = wv := by
            simp [descStep, andIndexNat, Val.falsy, jsIndexNat, ← List.get?_eq_getElem?, hg]
          rw [hd, show strictLookup (Val.vArr xs) (PathElem.idx i :: p) = strictLookup wv p from
            by rw [strictLookup, hg]]
          exact pathSafe_agree p wv (by rw [hd] at h; exact h.2)
        | none =>
          have hd : descStep (Val.vArr xs) (.idx i) = Val.vUndefined := by
            simp [descStep, andIndexNat, Val.falsy, jsIndexNat, ← List.get?_eq_getElem?, hg]
          rw [hd, jsDescend_undefined, show strictLookup (Val.vArr xs) (PathElem.idx i :: p) = none
            from by rw [strictLookup, hg]]
          rfl
    | vObj fs =>
      cases e with
      | idx i => simp [stepSafe] at h
      | key k =>
        cases hg : fs.find? (fun f => f.1 = k) with
        | some f =>
          have hd : descStep (Val.vObj fs) (.key k) = f.2 := by
            simp [descStep, andIndexStr, Val.falsy, jsIndexStr, lookupField_find, hg]
          rw [hd, show strictLookup (Val.vObj fs) (PathElem.key k :: p) = strictLookup f.2 p from
            by rw [strictLookup, hg]]
          exact pathSafe_agree p f.2 (by rw [hd] at h; exact h.2)
        | none =>
          have hd : descStep (Val.vObj fs) (.key k) = Val.vUndefined := by
            simp [descStep, andIndexStr, Val.falsy, jsIndexStr, lookupField_find, hg]
          rw [hd, jsDescend_undefined, show strictLookup (Val.vObj fs) (PathElem.key k :: p) = none
            from by rw [strictLookup, hg]]
          rfl

theorem getValueFromShapeList_length (w : World) (m : Mode) :
    (xs : List Shape) → (getValueFromShapeList w xs m).length = xs.length
  | [] => rfl
  | x :: xs => by
    rw [getValueFromShapeList, List.length_cons, List.length_cons,
      getValueFromShapeList_length w m xs]

theorem getValueFromShapeFields_keys (w : World) (m : Mode) :
    (fs : List (String × Shape)) →
    (getValueFromShapeFields w fs m).map Prod.fst = fs.map Prod.fst
  | [] => rfl
  | f :: fs => by
    rw [getValueFromShapeFields, List.map_cons, List.map_cons,
      getValueFromShapeFields_keys w m fs]

theorem jsDescend_falsy {fv : Val} (hf : fv.falsy = true) :
    (p : List PathElem) → jsDescend fv p = fv
  | [] => rfl
  | e :: p => by
    have hd : descStep fv e = fv := by
      cases e <;> simp [descStep, andIndexNat, andIndexStr, hf]
    rw [jsDescend, hd, jsDescend_falsy hf p]

/-- Claim C1: For every `InputGroup` constructed with a function-valued content
description, every read of a derived view (`structure`, `inputs`,
`flattedInputs`, `value`) re-invokes the description function for that access;
the result is not memoized across distinct accesses, so two consecutive reads
of `flattedInputs` while the description returns two trees with different
flattenings yield two different flattened input sets. -/
theorem c1_description_reinvoked_each_access :
    ∀ (f : Nat → Node) (t : Nat) (w : World) (m : Mode),
      structureAt (.fn f) t = f t
      ∧ inputsAt (.fn f) t = unwrapGroups (f t)
      ∧ valueAt w (.fn f) t m = getValueFromShape w (unwrapGroups (f t)) m
      ∧ flattedInputsAt (.fn f) t = flattenInputs (unwrapGroups (f t)) []
      ∧ ∀ t1 t2 : Nat,
          flattenInputs (unwrapGroups (f t1)) [] ≠ flattenInputs (unwrapGroups (f t2)) [] →
          flattedInputsAt (.fn f) t1 ≠ flattedInputsAt (.fn f) t2 :=
  fun _ _ _ _ => ⟨rfl, rfl, rfl, rfl, fun _ _ hne => hne⟩

theorem c1_witness :
    flattedInputsAt (.fn flipDesc) 0 ≠ flattedInputsAt (.fn flipDesc) 1 :=
  (c1_description_reinvoked_each_access flipDesc 0 nullWorld .value).2.2.2.2 0 1 (by decide)

/-- Claim C2: For every group structure and value tree, `confirm` reaches every
leaf of the structure and invokes the confirm operation of the leaf with the
"advance focus to the next field" option absent, hence disabled: the emitted
argument object carries no `next` option (`vUndefined`), and an absent option
never requests the advance behavior. -/
theorem c2_group_confirm_suppresses_advance :
    ∀ (n : Node) (v : Val),
      confirmShape n v
        = (leafOccurrences n).map (fun q => Call.confirm q.1 (jsDescend v q.2) .vUndefined)
      ∧ (confirmShape n v).map Call.callee = leavesOf n
      ∧ ∀ c ∈ confirmShape n v, callAdvances c = false := by
  intro n v
  refine ⟨confirmShape_occurrences n v, ?_, ?_⟩
  · rw [confirmShape_occurrences n v, List.map_map]
    rw [show (Call.callee ∘ fun q : Nat × List PathElem =>
      Call.confirm q.1 (jsDescend v q.2) Val.vUndefined) = Prod.fst from rfl]
    exact leafOccurrences_fst n
  · intro c hc
    rw [confirmShape_occurrences n v] at hc
    rcases List.mem_map.mp hc with ⟨q, _, hq⟩
    rw [← hq]
    rfl

theorem c2_witness :
    callAdvances (Call.confirm 1 .vUndefined .vUndefined) = false :=
  (c2_group_confirm_suppresses_advance threeLeafArr .vUndefined).2.2
    (Call.confirm 1 .vUndefined .vUndefined) (by decide)

/-- Claim C3: For every group (with either a constant or a function-valued
description, at every access generation), the flattened input list consists of
exactly the leaves obtainable by recursively unwrapping the resolved structure
through arrays, objects and nested groups: the lists are equal, so no
reachable leaf is missing and no unreachable leaf is included. -/
theorem c3_flattened_inputs_exact :
    ∀ (d : Desc) (t : Nat),
      flattedInputsAt d t = leavesOf (structureAt d t)
      ∧ ∀ i : Nat, i ∈ flattedInputsAt d t ↔ i ∈ leavesOf (structureAt d t) := by
  intro d t
  have h : flattedInputsAt d t = leavesOf (structureAt d t) :=
    flattenInputs_unwrap (structureAt d t)
  exact ⟨h, fun i => by rw [h]⟩

/-- Claim C4, counterexample: The claim "a leaf whose path is missing from the
supplied value tree is reset with no value" fails as stated: over the
structure `{a: {b: leaf}}` with value `{a: null}` the path `a.b` is missing
from the value tree, yet the leaf receives `null` rather than no value,
because the short-circuit descent propagates the falsy `null` itself. -/
theorem c4_counterexample : ¬ resetFollowsStrictLookup := by
  intro h
  exact absurd (h (.obj [("a", .obj [("b", .input 0)])]) (.vObj [("a", .vNull)])) (by decide)

/-- Claim C4, amended: `reset` descends the supplied value tree in lock step
with the structure through the JS short-circuit conjunction: every leaf
occurrence receives exactly the lock-step descent of the value along its path;
when no value is supplied at all every leaf is reset with no value; on every
path whose descent meets only absent values, matching containers or truthy
primitives, the lock-step descent coincides with the strict key/index lookup
(missing path ⟹ no value) — so keys present in the value but absent from the
structure are ignored; and a batch reset over non-throwing leaves never
fails.  (The only deviation from the claim as stated is the forced one: a
falsy non-absent value met along a path is propagated to the leaves beneath it
instead of "no value".) -/
theorem c4_reset_lockstep_amended :
    ∀ (n : Node) (v : Val),
      resetShape n v
        = (leafOccurrences n).map (fun q => Call.reset q.1 (jsDescend v q.2))
      ∧ resetShape n .vUndefined
        = (leafOccurrences n).map (fun q => Call.reset q.1 .vUndefined)
      ∧ (∀ (v2 : Val) (p : List PathElem), pathSafe v2 p = true →
          jsDescend v2 p = (strictLookup v2 p).getD .vUndefined)
      ∧ (resetShapeRun (fun _ => (none : Option Unit)) n v).2 = none := by
  intro n v
  refine ⟨resetShape_occurrences n v, ?_, fun v2 p hp => pathSafe_agree p v2 hp, ?_⟩
  · rw [resetShape_occurrences n .vUndefined]
    exact List.map_congr_left (fun q _ => by rw [jsDescend_undefined])
  · rw [resetShapeRun_eq, runTrace_all_ok _ _ (fun c _ => rfl)]

theorem c4_amended_witness :
    pathSafe (Val.vObj [("b", Val.vObj [("c", Val.vStr "X")])])
        [PathElem.key "b", PathElem.key "c"] = true
    ∧ jsDescend (Val.vObj [("b", Val.vObj [("c", Val.vStr "X")])])
        [PathElem.key "b", PathElem.key "c"]
      = (strictLookup (Val.vObj [("b", Val.vObj [("c", Val.vStr "X")])])
          [PathElem.key "b", PathElem.key "c"]).getD .vUndefined :=
  ⟨by decide, (c4_reset_lockstep_amended (.input 0) .vUndefined).2.2.1 _ _ (by decide)⟩

/-- Claim C5: In every extraction mode the extracted value tree mirrors the
collapsed input shape exactly: a leaf yields the attribute of that leaf read as-is,
an array yields a same-length array, an object yields an object with the same
key list, and empty containers yield empty results of the same kind; the
group-level getters are exactly this extraction over the collapsed inputs. -/
theorem c5_value_mirrors_shape :
    ∀ (w : World) (m : Mode),
      (∀ i : Nat, getValueFromShape w (.input i) m = w i m)
      ∧ (∀ xs : List Shape,
          getValueFromShape w (.arr xs) m = .vArr (getValueFromShapeList w xs m))
      ∧ (∀ xs : List Shape, (getValueFromShapeList w xs m).length = xs.length)
      ∧ (∀ fs : List (String × Shape),
          getValueFromShape w (.obj fs) m = .vObj (getValueFromShapeFields w fs m))
      ∧ (∀ fs : List (String × Shape),
          (getValueFromShapeFields w fs m).map Prod.fst = fs.map Prod.fst)
      ∧ getValueFromShape w (.arr []) m = .vArr []
      ∧ getValueFromShape w (.obj []) m = .vObj []
      ∧ ∀ (d : Desc) (t : Nat), valueAt w d t m = getValueFromShape w (inputsAt d t) m :=
  fun w m =>
    ⟨fun _ => rfl, fun _ => rfl, getValueFromShapeList_length w m, fun _ => rfl,
      getValueFromShapeFields_keys w m, rfl, rfl, fun _ _ => rfl⟩

/-- Claim C6: (Modelled from the spec; `src/utils/lookup.ts` and
`src/utils/weakProp.ts` are not among the sources.)  Recomputing the
flattened leaf set of a group updates the membership index to record the group for
exactly the leaves of the new set: the group is recorded for each present
leaf, removed for each absent leaf, records of other groups are untouched, and
recomputing with an unchanged leaf set is a no-op (the update is idempotent).
The index associates leaves weakly: collecting unreachable leaves erases their
entries entirely, and collecting discarded groups leaves no stale group
references behind. -/
theorem c6_membership_index :
    ∀ (g g2 : Nat) (leaves : List Nat) (idx : MembershipIndex) (l : Nat)
      (liveLeaf liveGroup : Nat → Bool),
      updateLookup g leaves idx l g = leaves.contains l
      ∧ (g2 ≠ g → updateLookup g leaves idx l g2 = idx l g2)
      ∧ updateLookup g leaves (updateLookup g leaves idx) = updateLookup g leaves idx
      ∧ ((∀ l2, idx l2 g = leaves.contains l2) → updateLookup g leaves idx = idx)
      ∧ (liveLeaf l = false → collectLeaves liveLeaf idx l g2 = false)
      ∧ (liveGroup g2 = false → collectGroups liveGroup idx l g2 = false) := by
  intro g g2 leaves idx l liveLeaf liveGroup
  refine ⟨by simp [updateLookup], fun hne => by simp [updateLookup, hne], ?_, ?_, ?_, ?_⟩
  · funext l2 g3
    by_cases hg : g3 = g <;> simp [updateLookup, hg]
  · intro hcons
    funext l2 g3
    by_cases hg : g3 = g
    · rw [hg, show updateLookup g leaves idx l2 g = leaves.contains l2 from by
        simp [updateLookup]]
      exact (hcons l2).symm
    · simp [updateLookup, hg]
  · intro hdead
    simp [collectLeaves, hdead]
  · intro hdead
    simp [collectGroups, hdead]

theorem c6_witness :
    updateLookup 1 [5] idxFixture = idxFixture
    ∧ updateLookup 1 [5] idxFixture 5 1 = true
    ∧ updateLookup 1 [5] idxFixture 6 2 = idxFixture 6 2
    ∧ collectLeaves (fun _ => false) idxFixture 5 1 = false :=
  ⟨(c6_membership_index 1 2 [5] idxFixture 5 (fun _ => false) (fun _ => false)).2.2.2.1
      (fun _ => rfl),
    by decide,
    (c6_membership_index 1 2 [5] idxFixture 6 (fun _ => false) (fun _ => false)).2.1
      (by decide),
    (c6_membership_index 1 2 [5] idxFixture 5 (fun _ => false) (fun _ => false)).2.2.2.2.1
      rfl⟩

/-- Claim C7: Reading a derived view mutates no leaf and no group state: the
value extraction threaded through the leaf-attribute store returns the store
unchanged together with the pure extraction result (and the flatten/unwrap
views do not touch the store at all — their signatures have no store); the
only mutating operations, `reset` and `confirm`, transform the store exactly
by folding the own operation of each leaf over the calls the group issues, for
every possible leaf behavior — the group adds no mutation of its own. -/
theorem c7_views_pure_mutations_delegate :
    ∀ (w : World) (s : Shape) (m : Mode) (n : Node) (v : Val) (app : World → Call → World),
      (getValueFromShapeT s m w).2 = w
      ∧ (getValueFromShapeT s m w).1 = getValueFromShape w s m
      ∧ resetShapeW app n v w = (resetShape n v).foldl app w
      ∧ confirmShapeW app n v w = (confirmShape n v).foldl app w :=
  fun w s m n v app =>
    ⟨by rw [getValueFromShapeT_pure], by rw [getValueFromShapeT_pure],
      resetShapeW_foldl app n v w, confirmShapeW_foldl app n v w⟩

/-- Claim C8: An error raised by one leaf during a batch reset or confirm
propagates upward unmodified and aborts the remainder of the batch: if the
call sequence of the batch is `pre ++ c :: post` with every call of `pre`
succeeding and `c` raising `e`, then the run executes exactly `pre ++ [c]`
(the calls of `post` are never issued) and surfaces exactly `e`. -/
theorem c8_leaf_error_aborts_batch :
    ∀ {E : Type} (beh : Call → Option E) (n : Node) (v : Val) (pre post : List Call)
      (c : Call) (e : E),
      ((resetShape n v = pre ++ c :: post ∧ (∀ c2 ∈ pre, beh c2 = none) ∧ beh c = some e) →
        resetShapeRun beh n v = (pre ++ [c], some e))
      ∧ ((confirmShape n v = pre ++ c :: post ∧ (∀ c2 ∈ pre, beh c2 = none) ∧ beh c = some e) →
        confirmShapeRun beh n v = (pre ++ [c], some e)) := by
  intro E beh n v pre post c e
  constructor
  · intro h
    rw [resetShapeRun_eq, h.1, runTrace_first_err beh e c post h.2.2 pre h.2.1]
  · intro h
    rw [confirmShapeRun_eq, h.1, runTrace_first_err beh e c post h.2.2 pre h.2.1]

theorem c8_witness :
    resetShapeRun behFailsOn1 threeLeafArr .vUndefined
      = ([Call.reset 0 .vUndefined, Call.reset 1 .vUndefined], some 7) :=
  (c8_leaf_error_aborts_batch behFailsOn1 threeLeafArr .vUndefined [Call.reset 0 .vUndefined]
      [Call.reset 2 .vUndefined] (Call.reset 1 .vUndefined) 7).1
    ⟨by decide, by decide, by decide⟩

/-- Claim C9: Collapsing is idempotent on already-collapsed trees: on every tree
containing no group nodes (only leaves, arrays and objects), `unwrapGroups`
returns a structurally equal tree — the same container shapes, key sets and
element order, with the identical leaves at every position. -/
theorem c9_collapse_idempotent :
    ∀ s : Shape, unwrapGroups (Shape.toNode s) = s :=
  unwrapGroups_toNode

/-- Claim C10: If the value supplied at a node during reset or confirm is falsy
(`undefined`, `null`, `false`, `0` or `""`), the short-circuit lock-step
descent propagates that value itself, so every leaf beneath that node receives
exactly that falsy value as its reset/confirm value argument — in particular a
present `null` is delivered as `null`, not as "no value". -/
theorem c10_falsy_value_propagates :
    ∀ (n : Node) (fv : Val), fv.falsy = true →
      resetShape n fv = (leavesOf n).map (fun i => Call.reset i fv)
      ∧ confirmShape n fv = (leavesOf n).map (fun i => Call.confirm i fv .vUndefined) := by
  intro n fv hf
  constructor
  · rw [resetShape_occurrences n fv, ← leafOccurrences_fst n, List.map_map]
    exact List.map_congr_left (fun q _ => by rw [jsDescend_falsy hf]; rfl)
  · rw [confirmShape_occurrences n fv, ← leafOccurrences_fst n, List.map_map]
    exact List.map_congr_left (fun q _ => by rw [jsDescend_falsy hf]; rfl)

theorem c10_witness :
    Val.falsy .vNull = true
    ∧ resetShape (.obj [("a", .obj [("b", .input 0)])]) .vNull = [Call.reset 0 .vNull] :=
  ⟨rfl, ((c10_falsy_value_propagates (.obj [("a", .obj [("b", .input 0)])]) .vNull rfl).1).trans
    (by decide)⟩
